import Mathlib

/-!
Verification of the Neural Constellation particle simulation
(`simulation.js`, two near-duplicate implementations; the primary one is the
file that defines `SpatialHash`, `SimpleNoise`, `Particle.update`,
`Shockwave`, and the UI input handlers).

Shallow embedding conventions:
* JS numbers are modelled by `ℚ` where the code only uses field operations,
  `Math.floor` and `Math.ceil` (the spatial hash, the boundary wrap, the
  noise generator), and by `ℝ` where the code calls `Math.sqrt`
  (velocity clamp, flocking, shockwaves).
* A JS `Map` keyed by the string `cx + "," + cy` is modelled as a total
  function `ℤ × ℤ → List QParticle`: the string key encodes the integer
  pair injectively, and a missing key behaves as the empty bucket.
* Object identity (`other === this`) is modelled by a numeric particle
  identifier `pid`.
* JS division producing a non-finite value (`0 / 0 = NaN` at distance 0 in
  the shockwave force) is modelled by `Option`: `none` stands for NaN.
-/

/-- A particle as stored in the spatial hash: identity plus position.
Velocity and display attributes play no role in the index. -/
structure QParticle where
  pid : ℕ
  x : ℚ
  y : ℚ
deriving DecidableEq, Repr

namespace SpatialHash

/-- `getKey(x, y)`: the cell coordinate pair
`(Math.floor(x / cellSize), Math.floor(y / cellSize))`. -/
def getKey (cellSize : ℚ) (x y : ℚ) : ℤ × ℤ :=
  (⌊x / cellSize⌋, ⌊y / cellSize⌋)

/-- The bucket map with every bucket empty (a fresh `new Map()`). -/
def emptyCells : ℤ × ℤ → List QParticle := fun _ => []

/-- `clear()`: `this.cells.clear()` drops every bucket's contents. -/
def clear (_cells : ℤ × ℤ → List QParticle) : ℤ × ℤ → List QParticle :=
  emptyCells

/-- `insert(particle)`: push the particle onto the bucket for the key of its
own position, creating the bucket if absent. -/
def insert (cellSize : ℚ) (cells : ℤ × ℤ → List QParticle) (p : QParticle) :
    ℤ × ℤ → List QParticle :=
  fun k => if getKey cellSize p.x p.y = k then cells k ++ [p] else cells k

/-- Inserting a list of particles in order (the per-frame rebuild loop
`for (let p of particles) spatialHash.insert(p)`). -/
def insertAll (cellSize : ℚ) (cells : ℤ × ℤ → List QParticle)
    (ps : List QParticle) : ℤ × ℤ → List QParticle :=
  ps.foldl (insert cellSize) cells

/-- The integers from `a` to `b` inclusive (empty when `b < a`), as iterated
by `for (let i = a; i <= b; i++)`. -/
def intRange (a b : ℤ) : List ℤ :=
  (List.range (b + 1 - a).toNat).map (fun i : ℕ => a + (i : ℤ))

/-- The keys visited by `query`: all `(cx + i, cy + j)` with
`-r ≤ i, j ≤ r`, in loop order. -/
def queryKeys (r cx cy : ℤ) : List (ℤ × ℤ) :=
  (intRange (-r) r).flatMap (fun i => (intRange (-r) r).map (fun j => (cx + i, cy + j)))

/-- `query(x, y, radius)`: with `r = Math.ceil(radius / cellSize)` and
`(cx, cy)` the query point's cell, concatenate the contents of every bucket
`(cx + i, cy + j)` for `-r ≤ i, j ≤ r`. -/
def query (cellSize : ℚ) (cells : ℤ × ℤ → List QParticle) (x y radius : ℚ) :
    List QParticle :=
  let r := ⌈radius / cellSize⌉
  let cx := ⌊x / cellSize⌋
  let cy := ⌊y / cellSize⌋
  (queryKeys r cx cy).flatMap cells

/-- A full rebuild from scratch: insert every particle into an empty map. -/
def build (cellSize : ℚ) (ps : List QParticle) : ℤ × ℤ → List QParticle :=
  insertAll cellSize emptyCells ps

end SpatialHash

/-- One coordinate of the boundary wrap in `Particle.update`, run
sequentially on the mutated value:
`if (this.x < 0) this.x = canvas.width; if (this.x > canvas.width) this.x = 0;`. -/
def wrapCoord (w x : ℚ) : ℚ :=
  let x1 := if x < 0 then w else x
  if x1 > w then 0 else x1

/-- The boundary-wrap step of `Particle.update` on both coordinates. -/
def wrapPosition (w h x y : ℚ) : ℚ × ℚ :=
  (wrapCoord w x, wrapCoord h y)

/-- JS `Array.prototype.splice(start)` with no delete count: removes every
element from index `start` to the end; a negative `start` counts from the
end, clamped at 0; a `start` past the end removes nothing. -/
def spliceFrom {α : Type} (ps : List α) (n : ℤ) : List α :=
  let start : ℤ := if n < 0 then max ((ps.length : ℤ) + n) 0 else min n (ps.length : ℤ)
  ps.take start.toNat

/-- The `particleCount` input handler: `newCount = parseInt(value)`; if it
exceeds the current length, push fresh particles until the length reaches it,
otherwise `particles.splice(newCount)`; finally store the raw `newCount` in
`config.particleCount`. `fresh` supplies the newly constructed particles.
Returns the new collection and the stored count. -/
def resizeParticles {α : Type} (fresh : ℕ → α) (ps : List α) (newCount : ℤ) :
    List α × ℤ :=
  if (ps.length : ℤ) < newCount then
    (ps ++ (List.range (newCount.toNat - ps.length)).map (fun i => fresh (ps.length + i)),
     newCount)
  else
    (spliceFrom ps newCount, newCount)

section SpatialHashLemmas

open SpatialHash

/-- Characterisation of the bucket map after a rebuild loop: each bucket
holds its previous contents followed by exactly the inserted particles whose
position hashes to that bucket, in insertion order. -/
theorem insertAll_apply (c : ℚ) (cells : ℤ × ℤ → List QParticle)
    (ps : List QParticle) (k : ℤ × ℤ) :
    insertAll c cells ps k =
      cells k ++ ps.filter (fun p => decide (getKey c p.x p.y = k)) := by
  induction ps generalizing cells with
  | nil => simp [insertAll]
  | cons p ps ih =>
    have hstep : insertAll c cells (p :: ps) k
        = insertAll c (SpatialHash.insert c cells p) ps k := rfl
    rw [hstep, ih]
    by_cases h : getKey c p.x p.y = k
    · simp [SpatialHash.insert, h, List.filter_cons]
    · simp [SpatialHash.insert, h, List.filter_cons]

theorem build_apply (c : ℚ) (ps : List QParticle) (k : ℤ × ℤ) :
    build c ps k = ps.filter (fun p => decide (getKey c p.x p.y = k)) := by
  simp [build, insertAll_apply, emptyCells]

theorem mem_intRange {a b t : ℤ} (h1 : a ≤ t) (h2 : t ≤ b) :
    t ∈ intRange a b := by
  unfold intRange
  rw [List.mem_map]
  refine ⟨(t - a).toNat, ?_, by omega⟩
  rw [List.mem_range]
  omega

theorem intRange_nodup (a b : ℤ) : (intRange a b).Nodup := by
  unfold intRange
  refine List.Nodup.map ?_ (List.nodup_range _)
  intro i j hij
  have h2 : a + (i : ℤ) = a + (j : ℤ) := hij
  omega

/-- Flooring after adding a bounded offset moves the floor by at most the
ceiling of the bound: if `|p - x| ≤ r` then
`⌊x/c⌋ - ⌈r/c⌉ ≤ ⌊p/c⌋ ≤ ⌊x/c⌋ + ⌈r/c⌉` (for `c > 0`). -/
theorem floor_div_abs_le {c p x r : ℚ} (hc : 0 < c) (h : |p - x| ≤ r) :
    ⌊x / c⌋ - ⌈r / c⌉ ≤ ⌊p / c⌋ ∧ ⌊p / c⌋ ≤ ⌊x / c⌋ + ⌈r / c⌉ := by
  rw [abs_le] at h
  have hdiv1 : (x - r) / c ≤ p / c := by
    apply div_le_div_of_nonneg_right ?_ hc.le
    linarith [h.1]
  have hdiv2 : p / c ≤ (x + r) / c := by
    apply div_le_div_of_nonneg_right ?_ hc.le
    linarith [h.2]
  rw [sub_div] at hdiv1
  rw [add_div] at hdiv2
  have f1 := Int.floor_le (x / c)
  have f2 := Int.le_ceil (r / c)
  have g1 := Int.lt_floor_add_one (x / c)
  constructor
  · apply Int.le_floor.mpr
    push_cast
    linarith
  · have hlt : ⌊p / c⌋ < ⌊x / c⌋ + ⌈r / c⌉ + 1 := by
      apply Int.floor_lt.mpr
      push_cast
      linarith
    omega

/-- Membership in a query result, from membership in a visited bucket. -/
theorem mem_query_of_key {c : ℚ} {cells : ℤ × ℤ → List QParticle}
    {x y radius : ℚ} {p : QParticle}
    (hi : ⌊x / c⌋ - ⌈radius / c⌉ ≤ (getKey c p.x p.y).1 ∧
          (getKey c p.x p.y).1 ≤ ⌊x / c⌋ + ⌈radius / c⌉)
    (hj : ⌊y / c⌋ - ⌈radius / c⌉ ≤ (getKey c p.x p.y).2 ∧
          (getKey c p.x p.y).2 ≤ ⌊y / c⌋ + ⌈radius / c⌉)
    (hmem : p ∈ cells (getKey c p.x p.y)) :
    p ∈ query c cells x y radius := by
  unfold query
  rw [List.mem_flatMap]
  refine ⟨getKey c p.x p.y, ?_, hmem⟩
  unfold queryKeys
  rw [List.mem_flatMap]
  refine ⟨(getKey c p.x p.y).1 - ⌊x / c⌋, mem_intRange (by omega) (by omega), ?_⟩
  rw [List.mem_map]
  refine ⟨(getKey c p.x p.y).2 - ⌊y / c⌋, mem_intRange (by omega) (by omega), ?_⟩
  rw [Prod.ext_iff]
  constructor
  · simp only []
    omega
  · simp only []
    omega

/-- The number of copies of `p` in a bucket of a rebuilt index: the full
multiplicity of `p` among the inserted particles if the bucket is the one
keyed by `p`'s position, and zero otherwise. -/
theorem count_build_apply (c : ℚ) (ps : List QParticle) (p : QParticle)
    (k : ℤ × ℤ) :
    (build c ps k).count p
      = if getKey c p.x p.y = k then ps.count p else 0 := by
  rw [build_apply]
  induction ps with
  | nil => simp
  | cons q ps ih =>
    by_cases hk : getKey c q.x q.y = k
    · by_cases hqp : q = p
      · subst hqp
        simp [List.filter_cons, hk, List.count_cons, ih, hk]
      · simp [List.filter_cons, hk, List.count_cons, ih, hqp]
    · by_cases hqp : q = p
      · subst hqp
        simp [List.filter_cons, hk, List.count_cons, ih]
      · simp [List.filter_cons, hk, List.count_cons, ih, hqp]

theorem count_flatMap_eq_zero {ks : List (ℤ × ℤ)} (c : ℚ) (ps : List QParticle)
    (p : QParticle) (h : getKey c p.x p.y ∉ ks) :
    (ks.flatMap (build c ps)).count p = 0 := by
  induction ks with
  | nil => simp
  | cons k ks ih =>
    rw [List.flatMap_cons, List.count_append]
    rw [count_build_apply]
    have h1 : getKey c p.x p.y ≠ k := by
      intro he
      exact h (by simp [he])
    have h2 : getKey c p.x p.y ∉ ks := by
      intro he
      exact h (by simp [he])
    rw [if_neg h1, ih h2]

theorem count_flatMap_le {ks : List (ℤ × ℤ)} (c : ℚ) (ps : List QParticle)
    (p : QParticle) (hnd : ks.Nodup) :
    (ks.flatMap (build c ps)).count p ≤ ps.count p := by
  induction ks with
  | nil => simp
  | cons k ks ih =>
    rw [List.flatMap_cons, List.count_append, count_build_apply]
    rw [List.nodup_cons] at hnd
    by_cases hk : getKey c p.x p.y = k
    · rw [if_pos hk]
      have : (ks.flatMap (build c ps)).count p = 0 :=
        count_flatMap_eq_zero c ps p (hk ▸ hnd.1)
      omega
    · rw [if_neg hk]
      have := ih hnd.2
      omega

theorem queryKeys_nodup (r cx cy : ℤ) : (queryKeys r cx cy).Nodup := by
  unfold queryKeys
  rw [List.nodup_flatMap]
  constructor
  · intro i _
    refine List.Nodup.map ?_ (intRange_nodup _ _)
    intro a b hab
    have h2 : (cx + i, cy + a) = (cx + i, cy + b) := hab
    rw [Prod.mk.injEq] at h2
    omega
  · refine List.Pairwise.imp ?_ (intRange_nodup (-r) r)
    intro a b hab
    intro x hxa hxb
    rw [List.mem_map] at hxa hxb
    obtain ⟨ja, _, hja⟩ := hxa
    obtain ⟨jb, _, hjb⟩ := hxb
    apply hab
    have e1 : (cx + a, cy + ja) = x := hja
    have e2 : (cx + b, cy + jb) = x := hjb
    rw [← e2, Prod.mk.injEq] at e1
    omega

end SpatialHashLemmas

/-- Claim C1: after a rebuild, for every query point `(x, y)` and radius
`r > 0`, `SpatialHash.query` returns a superset of the inserted particles
whose exact Euclidean distance to `(x, y)` is at most `r` (here stated as
`(p.x - x)² + (p.y - y)² ≤ r²`, which for `r > 0` is exactly
distance `≤ r`): no true neighbor is omitted, because the query visits every
cell within `⌈r / cellSize⌉` cells of the query point's cell in each axis. -/
theorem query_superset_of_true_neighbors
    (c : ℚ) (ps : List QParticle) (x y r : ℚ) (p : QParticle)
    (hc : 0 < c) (hr : 0 < r) (hp : p ∈ ps)
    (hdist : (p.x - x) * (p.x - x) + (p.y - y) * (p.y - y) ≤ r * r) :
    p ∈ SpatialHash.query c (SpatialHash.build c ps) x y r := by
  have hx : |p.x - x| ≤ r := by
    rw [abs_le]
    constructor <;>
      nlinarith [mul_self_nonneg (p.y - y), mul_self_nonneg (p.x - x + r),
        mul_self_nonneg (p.x - x - r)]
  have hy : |p.y - y| ≤ r := by
    rw [abs_le]
    constructor <;>
      nlinarith [mul_self_nonneg (p.x - x), mul_self_nonneg (p.y - y + r),
        mul_self_nonneg (p.y - y - r)]
  have hbx := floor_div_abs_le hc hx
  have hby := floor_div_abs_le hc hy
  apply mem_query_of_key
  · exact hbx
  · exact hby
  · rw [build_apply]
    simp [List.mem_filter, hp]

/-- Witness for C1: a concrete particle within the radius is returned. -/
theorem query_superset_of_true_neighbors_witness :
    (⟨0, 5, 5⟩ : QParticle) ∈
      SpatialHash.query 100
        (SpatialHash.build 100 [⟨0, 5, 5⟩, ⟨1, 300, 40⟩]) 10 10 50 :=
  query_superset_of_true_neighbors 100 [⟨0, 5, 5⟩, ⟨1, 300, 40⟩] 10 10 50
    ⟨0, 5, 5⟩ (by decide) (by decide) (by decide) (by norm_num)

/-- Claim C8: `clear()` followed by re-`insert()` of the same particle set
yields an index whose query results are identical, for every query point and
radius, to those of a fresh build of that set — regardless of what the
cleared index previously held. -/
theorem clear_reinsert_idempotent
    (c : ℚ) (cells : ℤ × ℤ → List QParticle) (ps : List QParticle)
    (x y r : ℚ) :
    SpatialHash.query c (SpatialHash.insertAll c (SpatialHash.clear cells) ps) x y r
      = SpatialHash.query c (SpatialHash.insertAll c SpatialHash.emptyCells ps) x y r :=
  rfl

/-- Claim C9: after a rebuild that inserts each particle of a duplicate-free
collection exactly once, each particle is stored exactly in the bucket keyed
by `(⌊x/cellSize⌋, ⌊y/cellSize⌋)` (every other bucket holds no copy of it),
and consequently any single query returns at most one reference to it. -/
theorem rebuild_no_duplicate_references
    (c : ℚ) (ps : List QParticle) (p : QParticle) (hnd : ps.Nodup) :
    (∀ k : ℤ × ℤ, (SpatialHash.build c ps k).count p
        = if SpatialHash.getKey c p.x p.y = k then ps.count p else 0) ∧
    (∀ x y r : ℚ,
      (SpatialHash.query c (SpatialHash.build c ps) x y r).count p ≤ 1) := by
  constructor
  · intro k
    exact count_build_apply c ps p k
  · intro x y r
    have h1 : (SpatialHash.query c (SpatialHash.build c ps) x y r).count p
        ≤ ps.count p := by
      unfold SpatialHash.query
      exact count_flatMap_le c ps p (queryKeys_nodup _ _ _)
    have h2 : ps.count p ≤ 1 := List.nodup_iff_count_le_one.mp hnd p
    omega

/-- Witness for C9 at a concrete duplicate-free particle list. -/
theorem rebuild_no_duplicate_references_witness :
    (∀ k : ℤ × ℤ,
      (SpatialHash.build 100 [⟨0, 1, 2⟩, ⟨1, 300, 4⟩] k).count ⟨0, 1, 2⟩
        = if SpatialHash.getKey 100 (1 : ℚ) (2 : ℚ) = k
          then ([⟨0, 1, 2⟩, ⟨1, 300, 4⟩] : List QParticle).count ⟨0, 1, 2⟩ else 0) ∧
    (∀ x y r : ℚ,
      (SpatialHash.query 100 (SpatialHash.build 100 [⟨0, 1, 2⟩, ⟨1, 300, 4⟩]) x y r).count
        ⟨0, 1, 2⟩ ≤ 1) :=
  rebuild_no_duplicate_references 100 [⟨0, 1, 2⟩, ⟨1, 300, 4⟩] ⟨0, 1, 2⟩ (by decide)

/-- Claim C10: for every particle `p` present in the index after a rebuild
and every radius `r ≥ 0` (including `r = 0` and radii smaller than the cell
size), `query(p.x, p.y, r)` includes `p` itself, because the query always
visits at least the cell containing the query point. -/
theorem query_includes_self
    (c : ℚ) (ps : List QParticle) (p : QParticle) (r : ℚ)
    (hc : 0 < c) (hr : 0 ≤ r) (hp : p ∈ ps) :
    p ∈ SpatialHash.query c (SpatialHash.build c ps) p.x p.y r := by
  have hR : 0 ≤ ⌈r / c⌉ := Int.ceil_nonneg (div_nonneg hr hc.le)
  apply mem_query_of_key
  · constructor <;> · simp [SpatialHash.getKey]; omega
  · constructor <;> · simp [SpatialHash.getKey]; omega
  · rw [build_apply]
    simp [List.mem_filter, hp]

/-- Witness for C10 with radius 0, far below the cell size. -/
theorem query_includes_self_witness :
    (⟨0, 5, 7⟩ : QParticle) ∈
      SpatialHash.query 100 (SpatialHash.build 100 [⟨0, 5, 7⟩]) 5 7 0 :=
  query_includes_self 100 [⟨0, 5, 7⟩] ⟨0, 5, 7⟩ 0 (by decide) (by decide) (by decide)

/-- Behaviour of one wrapped coordinate: the result always lands in the
closed interval `[0, w]`, a coordinate that left through the low edge
re-enters exactly at the high edge `w`, and one that left through the high
edge re-enters exactly at `0`. -/
theorem wrapCoord_spec (w x : ℚ) (hw : 0 ≤ w) :
    (0 ≤ wrapCoord w x ∧ wrapCoord w x ≤ w)
      ∧ (x < 0 → wrapCoord w x = w) ∧ (w < x → wrapCoord w x = 0) := by
  simp only [wrapCoord]
  split_ifs <;>
    refine ⟨⟨by linarith, by linarith⟩, fun hx => by linarith, fun hx => by linarith⟩

/-- Counterexample to claim C3 as stated: with `width = 100`, the pre-wrap
value `x = -1` wraps to exactly `100`, which is not in the half-open
interval `[0, 100)`. -/
theorem wrap_half_open_counterexample :
    wrapCoord 100 (-1) = 100 ∧ ¬ wrapCoord 100 (-1) < 100 := by
  constructor
  · norm_num [wrapCoord]
  · norm_num [wrapCoord]

/-- Claim C3 amended: for every pre-wrap position (including far
out-of-range values), the wrapped position lies in the CLOSED box
`[0, width] × [0, height]` (the value `width` itself is reachable: a
coordinate below `0` is sent exactly to `width`), and a particle exiting one
edge re-enters at the opposite edge rather than reflecting or clamping. -/
theorem wrap_position_in_closed_box (w h x y : ℚ) (hw : 0 ≤ w) (hh : 0 ≤ h) :
    (0 ≤ (wrapPosition w h x y).1 ∧ (wrapPosition w h x y).1 ≤ w)
      ∧ (0 ≤ (wrapPosition w h x y).2 ∧ (wrapPosition w h x y).2 ≤ h)
      ∧ (x < 0 → (wrapPosition w h x y).1 = w)
      ∧ (w < x → (wrapPosition w h x y).1 = 0)
      ∧ (y < 0 → (wrapPosition w h x y).2 = h)
      ∧ (h < y → (wrapPosition w h x y).2 = 0) := by
  have hx := wrapCoord_spec w x hw
  have hy := wrapCoord_spec h y hh
  exact ⟨hx.1, hy.1, hx.2.1, hx.2.2, hy.2.1, hy.2.2⟩

/-- Witness for the amended C3 at a far out-of-range pre-wrap position. -/
theorem wrap_position_in_closed_box_witness :
    (0 ≤ (wrapPosition 100 80 (-500) 200).1 ∧ (wrapPosition 100 80 (-500) 200).1 ≤ 100)
      ∧ (0 ≤ (wrapPosition 100 80 (-500) 200).2 ∧ (wrapPosition 100 80 (-500) 200).2 ≤ 80)
      ∧ ((-500 : ℚ) < 0 → (wrapPosition 100 80 (-500) 200).1 = 100)
      ∧ ((100 : ℚ) < -500 → (wrapPosition 100 80 (-500) 200).1 = 0)
      ∧ ((200 : ℚ) < 0 → (wrapPosition 100 80 (-500) 200).2 = 80)
      ∧ ((80 : ℚ) < 200 → (wrapPosition 100 80 (-500) 200).2 = 0) :=
  wrap_position_in_closed_box 100 80 (-500) 200 (by norm_num) (by norm_num)

/-- Counterexample to claim C7 as stated: a requested particle-count resize
to `-5` on a population of 150 is NOT clamped to `[0, upperBound]`: JS
`splice(-5)` removes the last 5 particles, leaving 145, and the raw value
`-5` is stored as the configured count. -/
theorem resize_no_clamp_counterexample :
    (resizeParticles (fun _ => ()) (List.replicate 150 ()) (-5)).1.length = 145
      ∧ (resizeParticles (fun _ => ()) (List.replicate 150 ()) (-5)).2 = -5
      ∧ ¬ (0 : ℤ) ≤ (resizeParticles (fun _ => ()) (List.replicate 150 ()) (-5)).2 := by
  refine ⟨?_, ?_, ?_⟩ <;> simp [resizeParticles, spliceFrom]

/-- Claim C7 amended: the `particleCount` input handler performs no
clamping. The stored configured count is always the raw requested value
(negative values included), and the resulting population size is: the
requested count when it exceeds the current length (growth is unbounded
above) or when it is in `[0, length]`; and for a negative request `n`,
`splice`'s negative-index semantics keep the first `length + n` particles
(all removed once `n ≤ -length`). No fault is raised in any case. -/
theorem resize_characterization {α : Type} (fresh : ℕ → α) (ps : List α)
    (n : ℤ) :
    (resizeParticles fresh ps n).2 = n
      ∧ ((resizeParticles fresh ps n).1.length : ℤ)
          = if (ps.length : ℤ) < n then n
            else if 0 ≤ n then n
            else max ((ps.length : ℤ) + n) 0 := by
  unfold resizeParticles spliceFrom
  by_cases h1 : (ps.length : ℤ) < n
  · rw [if_pos h1]
    refine ⟨rfl, ?_⟩
    rw [if_pos h1]
    simp only [List.length_append, List.length_map, List.length_range]
    omega
  · rw [if_neg h1]
    refine ⟨rfl, ?_⟩
    rw [if_neg h1]
    by_cases h2 : n < 0
    · rw [if_pos h2, if_neg (by omega)]
      simp only [List.length_take]
      omega
    · rw [if_neg h2, if_pos (by omega)]
      simp only [List.length_take]
      omega

namespace SimpleNoise

/-- Pointwise update of an index-to-value map, modelling a JS array write
`perm[i] = v` (a `Uint8Array` behaves as a map from indices to numbers). -/
def updFn (f : ℕ → ℕ) (i v : ℕ) : ℕ → ℕ :=
  fun n => if n = i then v else f n

/-- The `SimpleNoise` constructor. `rand k` is the value returned by the
`k`-th call to `Math.random()` — the ambient randomness source, modelled as
an injected seed stream so that construction is a pure function of it:
* `new Uint8Array(512)` is zero-initialised;
* `perm[i] = i` for `i < 256`;
* Fisher–Yates: for `i` from 255 down to 1 (the `k`-th iteration has
  `i = 255 - k`), `j = Math.floor(Math.random() * (i + 1))`, then swap
  `perm[i]` and `perm[j]`;
* `perm[i + 256] = perm[i]` for `i < 256`. -/
def buildPerm (rand : ℕ → ℚ) : ℕ → ℕ :=
  let p0 : ℕ → ℕ := fun _ => 0
  let p1 := (List.range 256).foldl (fun p i => updFn p i i) p0
  let p2 := (List.range 255).foldl (fun p k =>
    let i : ℕ := 255 - k
    let j : ℕ := (⌊rand k * ((i : ℚ) + 1)⌋).toNat
    updFn (updFn p i (p j)) j (p i)) p1
  (List.range 256).foldl (fun p i => updFn p (i + 256) (p2 i)) p2

/-- `fade(t) = t³(t(6t − 15) + 10)`, the quintic easing curve. -/
def fade (t : ℚ) : ℚ := t * t * t * (t * (t * 6 - 15) + 10)

/-- `lerp(t, a, b) = a + t(b − a)`. -/
def lerp (t a b : ℚ) : ℚ := a + t * (b - a)

/-- `grad(hash, x, y)`: select pseudo-gradient from the low 2 bits of the
hash; a nonzero bit test is JS truthiness. -/
def grad (hash : ℕ) (x y : ℚ) : ℚ :=
  let h := hash &&& 3
  let u := if h < 2 then x else y
  let v := if h < 2 then y else x
  (if h &&& 1 ≠ 0 then -u else u) + (if h &&& 2 ≠ 0 then -2 * v else 2 * v)

/-- `noise(x, y)`: bilinear blend, with the quintic easing, of the four
lattice-corner gradients around `(x, y)`. `Math.floor(x) & 255` is modelled
as `⌊x⌋ % 256` with the nonnegative remainder, which agrees with the JS
int32 bit-mask on the representable range. -/
def noise (perm : ℕ → ℕ) (x y : ℚ) : ℚ :=
  let X := ((⌊x⌋ % 256).toNat)
  let Y := ((⌊y⌋ % 256).toNat)
  let xf := x - ⌊x⌋
  let yf := y - ⌊y⌋
  let u := fade xf
  let v := fade yf
  let A := perm X + Y
  let B := perm (X + 1) + Y
  lerp v
    (lerp u (grad (perm A) xf yf) (grad (perm B) (xf - 1) yf))
    (lerp u (grad (perm (A + 1)) xf (yf - 1)) (grad (perm (B + 1)) (xf - 1) (yf - 1)))

end SimpleNoise

/-- Claim C5: the noise generator is deterministic per seed. The
constructor's only nondeterminism is the `Math.random()` stream, modelled as
the injected seed stream; two noise fields built from the same stream return
identical `noise(x, y)` values at every point of any query sequence (a
two-run equality over construction followed by sampling). -/
theorem noise_deterministic_per_seed (s1 s2 : ℕ → ℚ) (hs : s1 = s2)
    (pts : List (ℚ × ℚ)) :
    pts.map (fun q => SimpleNoise.noise (SimpleNoise.buildPerm s1) q.1 q.2)
      = pts.map (fun q => SimpleNoise.noise (SimpleNoise.buildPerm s2) q.1 q.2) := by
  subst hs
  rfl

/-- Witness for C5: two constructions from one concrete seed stream agree on
a concrete sample sequence. -/
theorem noise_deterministic_per_seed_witness :
    [((3 : ℚ)/2, (5 : ℚ)/2), (0, 1/3)].map
        (fun q => SimpleNoise.noise (SimpleNoise.buildPerm (fun _ => 1/2)) q.1 q.2)
      = [((3 : ℚ)/2, (5 : ℚ)/2), (0, 1/3)].map
        (fun q => SimpleNoise.noise (SimpleNoise.buildPerm (fun _ => 1/2)) q.1 q.2) :=
  noise_deterministic_per_seed (fun _ => 1/2) (fun _ => 1/2) rfl
    [((3 : ℚ)/2, (5 : ℚ)/2), (0, 1/3)]

noncomputable section RealDynamics

/-- The speed limit at the end of `Particle.update`'s velocity pipeline:
`speed = Math.sqrt(vx*vx + vy*vy)`; if `speed > maxSpeed`, rescale the
velocity by `maxSpeed / speed` (preserving direction), else leave it. -/
def clampSpeed (maxSpeed vx vy : ℝ) : ℝ × ℝ :=
  if Real.sqrt (vx * vx + vy * vy) > maxSpeed then
    (vx / Real.sqrt (vx * vx + vy * vy) * maxSpeed,
     vy / Real.sqrt (vx * vx + vy * vy) * maxSpeed)
  else (vx, vy)

/-- The velocity part of `Particle.update`: the mode, mouse and shockwave
force accumulations (lines that only do `vx += …`) sum to a net contribution
`(fx, fy)`; then friction multiplies the velocity, and the speed limit is
applied last. Nothing after the clamp writes the velocity (the remaining
lines update position, energy, pulse phase and display radius only). -/
def updateVelocity (friction maxSpeed vx vy fx fy : ℝ) : ℝ × ℝ :=
  clampSpeed maxSpeed ((vx + fx) * friction) ((vy + fy) * friction)

theorem clampSpeed_le (maxSpeed vx vy : ℝ) (hms : 0 < maxSpeed) :
    Real.sqrt ((clampSpeed maxSpeed vx vy).1 * (clampSpeed maxSpeed vx vy).1
      + (clampSpeed maxSpeed vx vy).2 * (clampSpeed maxSpeed vx vy).2)
      ≤ maxSpeed := by
  have hsum : 0 ≤ vx * vx + vy * vy :=
    add_nonneg (mul_self_nonneg vx) (mul_self_nonneg vy)
  set s := Real.sqrt (vx * vx + vy * vy) with hs_def
  by_cases h : s > maxSpeed
  · have hs_sq : s * s = vx * vx + vy * vy := Real.mul_self_sqrt hsum
    have hsne : s ≠ 0 := ne_of_gt (lt_trans hms h)
    simp only [clampSpeed, ← hs_def, if_pos h]
    have hsumne : vx * vx + vy * vy ≠ 0 := fun h0 =>
      hsne (by rw [hs_def, h0, Real.sqrt_zero])
    have key : vx / s * maxSpeed * (vx / s * maxSpeed)
        + vy / s * maxSpeed * (vy / s * maxSpeed)
        = maxSpeed * maxSpeed := by
      have e1 : vx / s * maxSpeed * (vx / s * maxSpeed)
          + vy / s * maxSpeed * (vy / s * maxSpeed)
          = (vx * vx + vy * vy) * (maxSpeed * maxSpeed) / (s * s) := by
        ring
      rw [e1, hs_sq, mul_div_cancel_left₀ _ hsumne]
    rw [key, Real.sqrt_mul_self hms.le]
  · simp only [clampSpeed, if_neg h]
    push_neg at h
    exact h

/-- Claim C2: for every force contribution accumulated within the step and
every `maxSpeed > 0`, immediately after `Particle.update`'s velocity
pipeline the speed satisfies `sqrt(vx² + vy²) ≤ maxSpeed` (so in particular
`≤ maxSpeed + ε` for any `ε ≥ 0`): the clamp runs after all forces and the
friction, and rescales the vector, preserving its direction. -/
theorem update_speed_limited (friction maxSpeed vx vy fx fy : ℝ)
    (hms : 0 < maxSpeed) :
    Real.sqrt
        ((updateVelocity friction maxSpeed vx vy fx fy).1
            * (updateVelocity friction maxSpeed vx vy fx fy).1
          + (updateVelocity friction maxSpeed vx vy fx fy).2
            * (updateVelocity friction maxSpeed vx vy fx fy).2)
      ≤ maxSpeed :=
  clampSpeed_le maxSpeed _ _ hms

/-- Witness for C2 at a concrete over-speed input: velocity `(3, 4)` (speed
5), no force, no friction loss, `maxSpeed = 4`. -/
theorem update_speed_limited_witness :
    Real.sqrt
        ((updateVelocity 1 4 3 4 0 0).1 * (updateVelocity 1 4 3 4 0 0).1
          + (updateVelocity 1 4 3 4 0 0).2 * (updateVelocity 1 4 3 4 0 0).2)
      ≤ 4 :=
  update_speed_limited 1 4 3 4 0 0 (by norm_num)

/-- A shockwave: `new Shockwave(x, y)` sets `radius = 0`,
`maxRadius = 400`, `strength = 2`, `age = 0`, `maxAge = 60`. -/
structure Shockwave where
  x : ℝ
  y : ℝ
  radius : ℝ
  maxRadius : ℝ
  strength : ℝ
  age : ℝ
  maxAge : ℝ

/-- JS division, with `none` standing for a non-finite result: in the one
place this is used, the numerator is zero whenever the denominator is, so
`none` is exactly the JS `0 / 0 = NaN`. -/
def jsDiv (a b : ℝ) : Option ℝ :=
  if b = 0 then none else some (a / b)

/-- One iteration of `Particle.applyShockwaves` for one wave:
`dist = sqrt(dx² + dy²)`; if `|dist - wave.radius| < 30`, add
`(dx / dist) * force` with `force = strength * (1 - age / maxAge)` to the
velocity. The division is unguarded in the source; `none` is returned when
it produces NaN (particle exactly at the wave origin). -/
def applyShockwave (w : Shockwave) (px py vx vy : ℝ) : Option (ℝ × ℝ) :=
  let dx := px - w.x
  let dy := py - w.y
  let dist := Real.sqrt (dx * dx + dy * dy)
  if |dist - w.radius| < 30 then
    let force := w.strength * (1 - w.age / w.maxAge)
    match jsDiv dx dist, jsDiv dy dist with
    | some ux, some uy => some (vx + ux * force, vy + uy * force)
    | _, _ => none
  else
    some (vx, vy)

/-- Claim C4 (refuted — code bug): for a live, freshly spawned shockwave
(radius 0, so the band test `|0 - radius| < 30` passes), applying its force
to a particle exactly at the origin evaluates `dx / dist = 0 / 0 = NaN`
(modelled `none`): the velocity is poisoned instead of being left unchanged.
The zero-distance guard demanded by the spec (and present in
`applyMouseForce`, `applyFlocking` and `applyGravity`) is missing here. -/
theorem shockwave_at_origin_nan :
    applyShockwave ⟨5, 5, 0, 400, 2, 0, 60⟩ 5 5 1 2 = none := by
  have h0 : Real.sqrt (((5 : ℝ) - 5) * ((5 : ℝ) - 5) + ((5 : ℝ) - 5) * ((5 : ℝ) - 5)) = 0 := by
    norm_num
  simp only [applyShockwave, jsDiv, h0]
  norm_num

/-- A particle as read by the flocking force: identity, position and
velocity. -/
structure RParticle where
  pid : ℕ
  x : ℝ
  y : ℝ
  vx : ℝ
  vy : ℝ

/-- The configuration radii read by `applyFlocking`. -/
structure FlockConfig where
  separationRadius : ℝ
  alignmentRadius : ℝ
  cohesionRadius : ℝ

/-- The nine accumulators of the single flocking loop. -/
structure FlockAcc where
  sepX : ℝ
  sepY : ℝ
  sepCount : ℕ
  aliX : ℝ
  aliY : ℝ
  aliCount : ℕ
  cohX : ℝ
  cohY : ℝ
  cohCount : ℕ

/-- `distSq = dx*dx + dy*dy` with `dx = other.x - this.x`,
`dy = other.y - this.y`. -/
def distSq (p o : RParticle) : ℝ :=
  (o.x - p.x) * (o.x - p.x) + (o.y - p.y) * (o.y - p.y)

/-- Membership test of the separation rule:
`distSq < separationRadius² && distSq > 0` on a non-self particle. -/
def sepCond (cfg : FlockConfig) (p o : RParticle) : Prop :=
  o.pid ≠ p.pid ∧ distSq p o < cfg.separationRadius * cfg.separationRadius
    ∧ 0 < distSq p o

/-- Membership test of the alignment rule: `distSq < alignmentRadius²` on a
non-self particle. -/
def aliCond (cfg : FlockConfig) (p o : RParticle) : Prop :=
  o.pid ≠ p.pid ∧ distSq p o < cfg.alignmentRadius * cfg.alignmentRadius

/-- Membership test of the cohesion rule: `distSq < cohesionRadius²` on a
non-self particle. -/
def cohCond (cfg : FlockConfig) (p o : RParticle) : Prop :=
  o.pid ≠ p.pid ∧ distSq p o < cfg.cohesionRadius * cfg.cohesionRadius

instance (cfg : FlockConfig) (p o : RParticle) : Decidable (sepCond cfg p o) :=
  Classical.dec _

instance (cfg : FlockConfig) (p o : RParticle) : Decidable (aliCond cfg p o) :=
  Classical.dec _

instance (cfg : FlockConfig) (p o : RParticle) : Decidable (cohCond cfg p o) :=
  Classical.dec _

/-- One iteration of the loop body of `Particle.applyFlocking` over `other`:
skip self (`other === this`), then accumulate the separation, alignment and
cohesion contributions under their respective exact-distance tests. -/
def flockStep (cfg : FlockConfig) (p : RParticle) (a : FlockAcc)
    (other : RParticle) : FlockAcc :=
  if other.pid = p.pid then a
  else
    let dx := other.x - p.x
    let dy := other.y - p.y
    let dsq := dx * dx + dy * dy
    let a1 :=
      if dsq < cfg.separationRadius * cfg.separationRadius ∧ 0 < dsq then
        { a with sepX := a.sepX - dx / Real.sqrt dsq,
                 sepY := a.sepY - dy / Real.sqrt dsq,
                 sepCount := a.sepCount + 1 }
      else a
    let a2 :=
      if dsq < cfg.alignmentRadius * cfg.alignmentRadius then
        { a1 with aliX := a1.aliX + other.vx, aliY := a1.aliY + other.vy,
                  aliCount := a1.aliCount + 1 }
      else a1
    if dsq < cfg.cohesionRadius * cfg.cohesionRadius then
      { a2 with cohX := a2.cohX + other.x, cohY := a2.cohY + other.y,
                cohCount := a2.cohCount + 1 }
    else a2

/-- `Particle.applyFlocking`: run the accumulation loop over the particle
list, then apply the three weighted steering updates to the velocity in
source order (separation first, then alignment — reading the velocity as
already updated by separation — then cohesion). Returns the new velocity. -/
def applyFlocking (cfg : FlockConfig) (p : RParticle)
    (particles : List RParticle) : ℝ × ℝ :=
  let a := particles.foldl (flockStep cfg p) ⟨0, 0, 0, 0, 0, 0, 0, 0, 0⟩
  let v1 : ℝ × ℝ :=
    if 0 < a.sepCount then
      (p.vx + a.sepX / (a.sepCount : ℝ) * 0.15,
       p.vy + a.sepY / (a.sepCount : ℝ) * 0.15)
    else (p.vx, p.vy)
  let v2 : ℝ × ℝ :=
    if 0 < a.aliCount then
      (v1.1 + (a.aliX / (a.aliCount : ℝ) - v1.1) * 0.05,
       v1.2 + (a.aliY / (a.aliCount : ℝ) - v1.2) * 0.05)
    else v1
  if 0 < a.cohCount then
    (v2.1 + (a.cohX / (a.cohCount : ℝ) - p.x) * 0.0005,
     v2.2 + (a.cohY / (a.cohCount : ℝ) - p.y) * 0.0005)
  else v2

/-- The separation neighbors, as the claim describes them: the other
particles strictly within `separationRadius` (at positive distance). -/
def sepNeighbors (cfg : FlockConfig) (p : RParticle)
    (particles : List RParticle) : List RParticle :=
  particles.filter (fun o => decide (sepCond cfg p o))

/-- The alignment neighbors: the other particles strictly within
`alignmentRadius`. -/
def aliNeighbors (cfg : FlockConfig) (p : RParticle)
    (particles : List RParticle) : List RParticle :=
  particles.filter (fun o => decide (aliCond cfg p o))

/-- The cohesion neighbors: the other particles strictly within
`cohesionRadius`. -/
def cohNeighbors (cfg : FlockConfig) (p : RParticle)
    (particles : List RParticle) : List RParticle :=
  particles.filter (fun o => decide (cohCond cfg p o))

/-- The unit vector pointing away from a neighbor. -/
def awayUnit (p o : RParticle) : ℝ × ℝ :=
  (-((o.x - p.x) / Real.sqrt (distSq p o)),
   -((o.y - p.y) / Real.sqrt (distSq p o)))

open Classical in
/-- The flocking force exactly as the claim words it: average the unit
vectors away from the separation neighbors and weight by `0.15`; steer 5%
of the way from the (current) velocity toward the alignment neighborhood's
average velocity; steer by fraction `0.0005` toward the cohesion
neighborhood's centroid; each rule applies only when its neighbor set is
nonempty, and the three rules apply in that order. -/
def flockingSpec (cfg : FlockConfig) (p : RParticle)
    (particles : List RParticle) : ℝ × ℝ :=
  let S := sepNeighbors cfg p particles
  let A := aliNeighbors cfg p particles
  let C := cohNeighbors cfg p particles
  let v1 : ℝ × ℝ :=
    if S = [] then (p.vx, p.vy)
    else (p.vx + (S.map (fun o => (awayUnit p o).1)).sum / (S.length : ℝ) * 0.15,
          p.vy + (S.map (fun o => (awayUnit p o).2)).sum / (S.length : ℝ) * 0.15)
  let v2 : ℝ × ℝ :=
    if A = [] then v1
    else (v1.1 + ((A.map (fun o => o.vx)).sum / (A.length : ℝ) - v1.1) * 0.05,
          v1.2 + ((A.map (fun o => o.vy)).sum / (A.length : ℝ) - v1.2) * 0.05)
  if C = [] then v2
  else (v2.1 + ((C.map (fun o => o.x)).sum / (C.length : ℝ) - p.x) * 0.0005,
        v2.2 + ((C.map (fun o => o.y)).sum / (C.length : ℝ) - p.y) * 0.0005)

/-- One loop iteration, written as nine independent conditional
accumulations. -/
theorem flockStep_eq (cfg : FlockConfig) (p : RParticle) (a : FlockAcc)
    (o : RParticle) :
    flockStep cfg p a o =
      ⟨a.sepX - (if sepCond cfg p o then (o.x - p.x) / Real.sqrt (distSq p o) else 0),
       a.sepY - (if sepCond cfg p o then (o.y - p.y) / Real.sqrt (distSq p o) else 0),
       a.sepCount + (if sepCond cfg p o then 1 else 0),
       a.aliX + (if aliCond cfg p o then o.vx else 0),
       a.aliY + (if aliCond cfg p o then o.vy else 0),
       a.aliCount + (if aliCond cfg p o then 1 else 0),
       a.cohX + (if cohCond cfg p o then o.x else 0),
       a.cohY + (if cohCond cfg p o then o.y else 0),
       a.cohCount + (if cohCond cfg p o then 1 else 0)⟩ := by
  unfold flockStep sepCond aliCond cohCond distSq
  by_cases h0 : o.pid = p.pid
  · simp [h0]
  · by_cases h1 : (o.x - p.x) * (o.x - p.x) + (o.y - p.y) * (o.y - p.y)
        < cfg.separationRadius * cfg.separationRadius
        ∧ 0 < (o.x - p.x) * (o.x - p.x) + (o.y - p.y) * (o.y - p.y) <;>
      by_cases h2 : (o.x - p.x) * (o.x - p.x) + (o.y - p.y) * (o.y - p.y)
        < cfg.alignmentRadius * cfg.alignmentRadius <;>
      by_cases h3 : (o.x - p.x) * (o.x - p.x) + (o.y - p.y) * (o.y - p.y)
        < cfg.cohesionRadius * cfg.cohesionRadius <;>
      simp [h0, h1, h2, h3]

theorem sum_map_neg {α : Type} (l : List α) (f : α → ℝ) :
    (l.map (fun x => -f x)).sum = -(l.map f).sum := by
  induction l with
  | nil => simp
  | cons x xs ih =>
    simp [ih]
    ring

/-- The single accumulation loop computes, in one pass, the three filtered
sums and counts of the separation / alignment / cohesion neighbor sets. -/
theorem foldl_flockStep (cfg : FlockConfig) (p : RParticle)
    (particles : List RParticle) (a : FlockAcc) :
    particles.foldl (flockStep cfg p) a =
      ⟨a.sepX - ((sepNeighbors cfg p particles).map
          (fun o => (o.x - p.x) / Real.sqrt (distSq p o))).sum,
       a.sepY - ((sepNeighbors cfg p particles).map
          (fun o => (o.y - p.y) / Real.sqrt (distSq p o))).sum,
       a.sepCount + (sepNeighbors cfg p particles).length,
       a.aliX + ((aliNeighbors cfg p particles).map (fun o => o.vx)).sum,
       a.aliY + ((aliNeighbors cfg p particles).map (fun o => o.vy)).sum,
       a.aliCount + (aliNeighbors cfg p particles).length,
       a.cohX + ((cohNeighbors cfg p particles).map (fun o => o.x)).sum,
       a.cohY + ((cohNeighbors cfg p particles).map (fun o => o.y)).sum,
       a.cohCount + (cohNeighbors cfg p particles).length⟩ := by
  induction particles generalizing a with
  | nil => simp [sepNeighbors, aliNeighbors, cohNeighbors]
  | cons o rest ih =>
    rw [List.foldl_cons, ih, flockStep_eq]
    simp only [sepNeighbors, aliNeighbors, cohNeighbors, List.filter_cons]
    by_cases h1 : sepCond cfg p o <;> by_cases h2 : aliCond cfg p o <;>
      by_cases h3 : cohCond cfg p o <;>
      simp [h1, h2, h3, sub_sub, add_assoc, add_comm, add_left_comm]

/-- Claim C6: in Emergent mode the flocking force is exactly the claimed
three-rule computation — for each neighbor strictly within
`separationRadius` (at positive distance) accumulate the unit vector away
from it, average over the separation count and weight by `0.15`; steer 5%
(`0.05`) of the way from the particle's velocity toward the
alignment neighborhood's average velocity; steer by fraction `0.0005`
toward the cohesion neighborhood's centroid — with all three rules using
exact-distance membership tests, applied in source order. -/
theorem applyFlocking_eq_flockingSpec (cfg : FlockConfig) (p : RParticle)
    (particles : List RParticle) :
    applyFlocking cfg p particles = flockingSpec cfg p particles := by
  unfold applyFlocking flockingSpec
  rw [foldl_flockStep]
  by_cases hS : sepNeighbors cfg p particles = [] <;>
    by_cases hA : aliNeighbors cfg p particles = [] <;>
      by_cases hC : cohNeighbors cfg p particles = [] <;>
        simp [hS, hA, hC, List.length_pos, awayUnit, sum_map_neg, neg_div,
          zero_sub, List.isEmpty_iff]
